import Mathlib

set_option maxRecDepth 8192

/-!
Verification of the HLS video server (src/src/video.ts) against its design
specification.  The TypeScript source is shallowly embedded below: each
definition mirrors one function or route handler of `video.ts`, with the
filesystem and the in-memory session registry made explicit as values.
Strings model both filenames and file contents; directory listings are the
lists of names a `readdir` call returns.
-/

namespace HLSServer

/-! ### Decimal rendering of numbers

JavaScript template interpolation renders a number in its shortest decimal
form (`4` → "4", `4.5` → "4.5").  All numbers the server handles are decimal
literals arriving via JSON or produced by `parseFloat`/`parseInt`, and the
server never performs arithmetic on them, so we model a JS number as a
decimal fixed-point value: `mantissa / 10 ^ exp`.  Values built by the
embedding are kept in normal form (no trailing zero digits), matching the
canonical rendering of the corresponding IEEE double. -/

def digitChar (n : ℕ) : Char := Char.ofNat (48 + n)

/-- Decimal digits of `n`, most significant first; `fuel` bounds recursion. -/
def natCharsAux : ℕ → ℕ → List Char
  | 0, _ => []
  | fuel + 1, n => if n < 10 then [digitChar n] else natCharsAux fuel (n / 10) ++ [digitChar (n % 10)]

def natChars (n : ℕ) : List Char := natCharsAux (n + 1) n

def natToString (n : ℕ) : String := String.mk (natChars n)

/-! ### Character-sequence helpers -/

def startsWithSeq : List Char → List Char → Bool
  | [], _ => true
  | _ :: _, [] => false
  | a :: as, b :: bs => a = b && startsWithSeq as bs

def endsWithSeq (sfx cs : List Char) : Bool := startsWithSeq sfx.reverse cs.reverse

def containsSeq (needle : List Char) : List Char → Bool
  | [] => needle.isEmpty
  | c :: rest => startsWithSeq needle (c :: rest) || containsSeq needle rest

/-! ### JS numbers

A finite JS number is modelled by its canonical shortest decimal form
`mantissa / 10 ^ exp` — every IEEE double's canonical rendering is such a
decimal, and the server never computes with durations, only parses,
compares and renders them.  `JSFloat` adds the two infinities `parseFloat`
can produce (`NaN` is represented by `Option`). -/

/-- A finite JS number as a decimal fixed-point value `mantissa / 10 ^ exp`. -/
structure JSNum where
  mantissa : ℤ
  exp : ℕ
deriving DecidableEq

def JSNum.ofNat (n : ℕ) : JSNum := ⟨(n : ℤ), 0⟩

/-- A `parseFloat` result other than `NaN`: a finite value or `±Infinity`. -/
inductive JSFloat
  | num (q : JSNum)
  | infinite (neg : Bool)
deriving DecidableEq

def stripTrailingZeros (ds : List Char) : List Char :=
  (ds.reverse.dropWhile (fun c => c = '0')).reverse

/-- Significand of an exponent-notation rendering: first digit, then a
point and the remaining digits when there are any. -/
def expMantissaStr (ds : List Char) : String :=
  match ds with
  | [] => "0"
  | c :: rest =>
    if rest.isEmpty then String.mk [c] else String.mk [c] ++ "." ++ String.mk rest

/-- Magnitude part of JS `Number::toString` (radix 10) on the value
`m / 10 ^ e`, `m > 0`: with `n` the decimal point position, positional
digits for `0 < n ≤ 21`, a `0.000…d` form for `-6 < n ≤ 0`, exponent
notation (`d[.ddd]e±k`) beyond — exactly ECMA-262's rules applied to the
value's shortest decimal form. -/
def jsNumBody (m e : ℕ) : String :=
  if 0 < ((natChars m).length : ℤ) - (e : ℤ) ∧ ((natChars m).length : ℤ) - (e : ℤ) ≤ 21 then
    if e = 0 then String.mk (natChars m)
    else
      String.mk ((natChars m).take ((natChars m).length - e)) ++ "." ++
        String.mk ((natChars m).drop ((natChars m).length - e))
  else if (-6 : ℤ) < ((natChars m).length : ℤ) - (e : ℤ) ∧
      ((natChars m).length : ℤ) - (e : ℤ) ≤ 0 then
    "0." ++ String.mk (List.replicate (e - (natChars m).length) '0') ++ String.mk (natChars m)
  else
    expMantissaStr (stripTrailingZeros (natChars m))
      ++ (if ((natChars m).length : ℤ) - (e : ℤ) - 1 < 0 then "e-" else "e+")
      ++ natToString (((natChars m).length : ℤ) - (e : ℤ) - 1).natAbs

/-- JS `Number::toString` on a finite value: "0" for zero, otherwise an
optional sign and the magnitude rendering (`⟨45,1⟩` → "4.5",
`⟨10^21,0⟩` → "1e+21", `⟨5,7⟩` → "5e-7"). -/
def jsNumToString (x : JSNum) : String :=
  if x.mantissa = 0 then "0"
  else (if x.mantissa < 0 then "-" else "") ++ jsNumBody x.mantissa.natAbs x.exp

/-- Rendering of a `parseFloat` result (`Infinity` interpolates as the word). -/
def jsFloatToString : JSFloat → String
  | .num q => jsNumToString q
  | .infinite neg => if neg then "-Infinity" else "Infinity"

/-- Exact integer value of a digit string (before double rounding). -/
def digitsToNat (ds : List Char) : ℕ := ds.foldl (fun n c => 10 * n + (c.toNat - 48)) 0

/-- Least `k` with `n < 2 ^ (53 + k)`: the number of bits a 53-bit
significand cannot hold.  The fuel bound only matters past the double
overflow threshold, where any `k` it returns still yields `inf` below. -/
def excessBitsAux (n : ℕ) : ℕ → ℕ → ℕ
  | 0, k => k
  | fuel + 1, k => if n < 2 ^ (53 + k) then k else excessBitsAux n fuel (k + 1)

def excessBits (n : ℕ) : ℕ := excessBitsAux n 2048 0

/-- An integer rounded to double precision, or `Infinity` past overflow. -/
inductive JSParsedInt
  | fin (v : ℕ)
  | inf
deriving DecidableEq

/-- Round a natural number to the nearest IEEE double (ties to even), as
`parseInt` does: exact below `2 ^ 53`, a 53-bit significand beyond
(`9007199254740993` rounds to `9007199254740992`), `Infinity` at
`2 ^ 1024` and beyond. -/
def doubleRoundNat (n : ℕ) : JSParsedInt :=
  if n < 2 ^ 53 then JSParsedInt.fin n
  else
    let k := excessBits n
    let q := n / 2 ^ k
    let r := n % 2 ^ k
    let half := 2 ^ (k - 1)
    let q2 := if half < r ∨ (r = half ∧ q % 2 = 1) then q + 1 else q
    let v := q2 * 2 ^ k
    if v < 2 ^ 1024 then JSParsedInt.fin v else JSParsedInt.inf

/-- The ordering the sort comparator `numA - numB` induces on `parseInt`
results: the numeric order on finite doubles; `Infinity - Infinity` is
`NaN`, which the sort treats as 0, so two infinite keys tie. -/
def jsNumLe : JSParsedInt → JSParsedInt → Bool
  | .fin a, .fin b => a ≤ b
  | .fin _, .inf => true
  | .inf, .fin _ => false
  | .inf, .inf => true

/-- Strip trailing zero decimal digits so the value is in the normal form an
IEEE double's canonical decimal rendering uses (`450/10^2` → `45/10^1`). -/
def jsNormalize : ℤ → ℕ → JSNum
  | m, 0 => ⟨m, 0⟩
  | m, e + 1 => if m % 10 = 0 then jsNormalize (m / 10) e else ⟨m, e + 1⟩

/-- The ECMA whitespace set `parseFloat` skips: WhiteSpace (tab, VT, FF,
space, NBSP, BOM, Unicode Zs) and LineTerminator (LF, CR, LS, PS). -/
def jsWhitespace (c : Char) : Bool :=
  c = ' ' ∨ c = '\t' ∨ c = '\n' ∨ c = Char.ofNat 11 ∨ c = Char.ofNat 12 ∨ c = '\r' ∨
    c = Char.ofNat 160 ∨ c = Char.ofNat 0x1680 ∨
    (Char.ofNat 0x2000 ≤ c ∧ c ≤ Char.ofNat 0x200A) ∨
    c = Char.ofNat 0x2028 ∨ c = Char.ofNat 0x2029 ∨ c = Char.ofNat 0x202F ∨
    c = Char.ofNat 0x205F ∨ c = Char.ofNat 0x3000 ∨ c = Char.ofNat 0xFEFF

/-- `parseFloat`: skip ECMA whitespace, optional sign, then either the
literal `Infinity` or decimal digits with an optional fraction; `none`
models `NaN`.  A trailing exponent suffix is not folded into the stored
magnitude — it cannot change the sign or zeroness, which is all the
duration validation inspects — and the final rounding of the decimal to
binary double precision is likewise not modelled; no settled statement
depends on the stored magnitude of a string-supplied duration. -/
def jsParseFloat (s : String) : Option JSFloat :=
  let cs := s.data.dropWhile jsWhitespace
  let (neg, cs2) := match cs with
    | '-' :: r => (true, r)
    | '+' :: r => (false, r)
    | _ => (false, cs)
  if startsWithSeq ['I', 'n', 'f', 'i', 'n', 'i', 't', 'y'] cs2 then
    some (JSFloat.infinite neg)
  else
    let intDs := cs2.takeWhile Char.isDigit
    let rest := cs2.dropWhile Char.isDigit
    let fracDs := match rest with
      | '.' :: r => r.takeWhile Char.isDigit
      | _ => []
    if intDs.isEmpty ∧ fracDs.isEmpty then none
    else
      let m : ℤ := (digitsToNat (intDs ++ fracDs) : ℤ)
      some (JSFloat.num (jsNormalize (if neg then -m else m) fracDs.length))

/-- JS truthiness of a number: 0 (and NaN, handled by `Option`) are falsy. -/
def jsFloatTruthy : JSFloat → Bool
  | .num q => ¬ (q.mantissa = 0)
  | .infinite _ => true

/-- The route's `parsedDuration <= 0` test (`Infinity` passes, `-Infinity`
fails). -/
def jsFloatNonPos : JSFloat → Bool
  | .num q => q.mantissa ≤ 0
  | .infinite neg => neg

/-! ### Filename classification (video.ts lines 94-101)

The generator partitions a directory listing with
`f.toLowerCase().includes('init') && /\.(mp4|m4s)$/i.test(f)` for the init
fragment and `/^chunk\d+\.(mp4|m4s)$/i` for numbered fragments.  Case
folding is modelled at ASCII level, which is exact for every name the
upload route can produce. -/

def jsToLower (c : Char) : Char :=
  if 'A' ≤ c ∧ c ≤ 'Z' then Char.ofNat (c.toNat + 32) else c

def lowerChars (cs : List Char) : List Char := cs.map jsToLower

/-- `/\.(mp4|m4s)$/i.test(f)` -/
def hasMediaExt (f : String) : Bool :=
  endsWithSeq ['.', 'm', 'p', '4'] (lowerChars f.data) ||
    endsWithSeq ['.', 'm', '4', 's'] (lowerChars f.data)

/-- `f.toLowerCase().includes('init') && /\.(mp4|m4s)$/i.test(f)` -/
def isInitName (f : String) : Bool :=
  containsSeq ['i', 'n', 'i', 't'] (lowerChars f.data) && hasMediaExt f

/-- Match `^chunk(\d+)\.(mp4|m4s)$` against an already-lowercased name,
returning the captured index: the literal prefix, at least one digit
(maximal run), then exactly one of the two extensions. -/
def matchChunkLower (cs : List Char) : Option ℕ :=
  if startsWithSeq ['c', 'h', 'u', 'n', 'k'] cs then
    let rest := cs.drop 5
    let ds := rest.takeWhile Char.isDigit
    let tl := rest.dropWhile Char.isDigit
    if ds.isEmpty then none
    else if tl = ['.', 'm', 'p', '4'] ∨ tl = ['.', 'm', '4', 's'] then some (digitsToNat ds)
    else none
  else none

def parseChunkIdx (f : String) : Option ℕ := matchChunkLower (lowerChars f.data)

/-- `/^chunk\d+\.(mp4|m4s)$/i.test(f)` (video.ts line 96) -/
def isChunkName (f : String) : Bool := (parseChunkIdx f).isSome

/-- Sort key of the comparator on lines 97-100: the captured digits parsed
with `parseInt` (so rounded to double precision, with distinct indices at
and beyond `2 ^ 53` possibly colliding), with the `|| '0'` fallback when
the match fails. -/
def chunkIdx (f : String) : JSParsedInt := doubleRoundNat ((parseChunkIdx f).getD 0)

/-- Insertion step of a stable ascending sort by `chunkIdx` under the
comparator's order `jsNumLe`; JS `Array.prototype.sort` with comparator
`numA - numB` is stable, and a stable sort's output is uniquely determined,
so this models lines 97-101 exactly — including ties, which keep the
directory-listing order. -/
def insertByIdx (x : String) : List String → List String
  | [] => [x]
  | y :: ys => if jsNumLe (chunkIdx x) (chunkIdx y) then x :: y :: ys else y :: insertByIdx x ys

def sortByIdx : List String → List String
  | [] => []
  | x :: xs => insertByIdx x (sortByIdx xs)

/-- The `segmentFiles` pipeline (video.ts lines 95-101): filter the listing
to numbered fragments, then sort ascending by embedded index. -/
def segmentFilesOf (files : List String) : List String :=
  sortByIdx (files.filter isChunkName)

/-- `files.find(...)` for the init fragment (video.ts line 94). -/
def findInit (files : List String) : Option String := files.find? isInitName

/-! ### Session metadata and the playlist generator (video.ts lines 55-134) -/

structure SessionMetadata where
  sessionId : String
  segmentDuration : JSFloat
  createdAt : String
deriving DecidableEq

def DEFAULT_SEGMENT_DURATION : JSNum := JSNum.ofNat 5

/-- Duration resolution (video.ts lines 104-110): the registry entry's
duration if the entry exists and the value is truthy (non-zero), otherwise
the default. -/
def resolvedDuration (md : Option SessionMetadata) : JSFloat :=
  match md with
  | some m =>
    if jsFloatTruthy m.segmentDuration then m.segmentDuration
    else JSFloat.num DEFAULT_SEGMENT_DURATION
  | none => JSFloat.num DEFAULT_SEGMENT_DURATION

/-- The `#EXT-X-MAP` line, present exactly when an init fragment was found
(video.ts lines 118-120). -/
def mapTag (files : List String) : String :=
  match findInit files with
  | some f => "#EXT-X-MAP:URI=\"" ++ f ++ "\"\n"
  | none => ""

/-- `generateHLSPlaylist` (video.ts lines 81-134) as a pure function of the
directory listing, the registry entry for the session, the caller-supplied
sequence id (a string; the route passes the raw `chunkId` path parameter)
and the finalize flag.  The TS defaults are `sequenceId = '0'`,
`isFinal = false`. -/
def generateHLSPlaylist (files : List String) (md : Option SessionMetadata)
    (sequenceId : String) (isFinal : Bool) : String :=
  let segmentDuration := resolvedDuration md
  "#EXTM3U\n" ++ "#EXT-X-VERSION:7\n" ++ "#EXT-X-PLAYLIST-TYPE:EVENT\n"
    ++ ("#EXT-X-TARGETDURATION:" ++ jsFloatToString segmentDuration ++ "\n")
    ++ ("#EXT-X-MEDIA-SEQUENCE:" ++ sequenceId ++ "\n")
    ++ mapTag files
    ++ "\n"
    ++ String.join ((segmentFilesOf files).map
        (fun f => "#EXTINF:" ++ jsFloatToString segmentDuration ++ ".000" ++ ",\n" ++ f ++ "\n"))
    ++ (if isFinal then "#EXT-X-ENDLIST\n" else "")

/-! ### Server state

The registry (`const sessionMetadata = new Map(...)`, video.ts line 61) and
the per-session directories of the chunk store are association lists keyed
by strings, preserving insertion order (a JS `Map` iterates and updates in
insertion order; a directory listing is returned in the stored order). -/

def alistLookup {α : Type} (k : String) : List (String × α) → Option α
  | [] => none
  | p :: l => if p.1 = k then some p.2 else alistLookup k l

def alistContains {α : Type} (k : String) (l : List (String × α)) : Bool :=
  (alistLookup k l).isSome

/-- `Map.set` / overwriting file write: update in place when present,
append otherwise. -/
def alistSet {α : Type} (k : String) (v : α) (l : List (String × α)) : List (String × α) :=
  if alistContains k l then l.map (fun p => if p.1 = k then (k, v) else p)
  else l ++ [(k, v)]

/-- `Map.delete` (video.ts line 70, `cleanupSessionMetadata`). -/
def alistDelete {α : Type} (k : String) (l : List (String × α)) : List (String × α) :=
  l.filter (fun p => decide (p.1 ≠ k))

def alistUpdate {α : Type} (k : String) (f : α → α) (l : List (String × α)) :
    List (String × α) :=
  l.map (fun p => if p.1 = k then (k, f p.2) else p)

/-- A session directory: filename to file contents. -/
abbrev Dir := List (String × String)

abbrev Registry := List (String × SessionMetadata)

/-- `getSessionMetadata` (video.ts lines 64-66). -/
def getSessionMetadata (sessionId : String) (reg : Registry) : Option SessionMetadata :=
  alistLookup sessionId reg

/-- `cleanupSessionMetadata` (video.ts lines 69-71). -/
def cleanupSessionMetadata (sessionId : String) (reg : Registry) : Registry :=
  alistDelete sessionId reg

/-- The whole mutable state: the in-memory registry and the on-disk chunk
store (directory name to directory contents). -/
structure ServerState where
  registry : Registry
  dirs : List (String × Dir)
deriving DecidableEq

def getDir (sessionId : String) (st : ServerState) : Option Dir :=
  alistLookup sessionId st.dirs

/-- `fs.readdir` on an existing session directory. -/
def listingOf (sessionId : String) (st : ServerState) : List String :=
  ((getDir sessionId st).getD []).map Prod.fst

/-- `fs.mkdir(sessionDir, { recursive: true })`: create the directory if
absent, succeed silently otherwise. -/
def ensureDir (sessionId : String) (st : ServerState) : ServerState :=
  if alistContains sessionId st.dirs then st
  else { st with dirs := st.dirs ++ [(sessionId, [])] }

/-- `fs.writeFile` inside an existing session directory (replaces the file
wholesale). -/
def writeFile (sessionId name content : String) (st : ServerState) : ServerState :=
  { st with dirs := alistUpdate sessionId (fun d => alistSet name content d) st.dirs }

def readFileSt (sessionId name : String) (st : ServerState) : Option String :=
  (getDir sessionId st).bind (fun d => alistLookup name d)

def playlistFileName : String := "playlist.m3u8"

/-! ### Session creation (video.ts lines 137-175)

`requestBody?.segmentDuration || DEFAULT_SEGMENT_DURATION` followed by
`parseFloat(segmentDuration.toString())` and the `<= 0 / NaN` check.  The
request field is either a JSON number, a JSON string, or absent; the uuid
and the `new Date().toISOString()` timestamp are passed in as parameters. -/

inductive DurationInput
  | num (q : JSNum)
  | str (s : String)
  | absent
deriving DecidableEq

/-- The `||` defaulting (line 145): a falsy value — the number 0, the empty
string, or an absent field — is replaced by the default duration. -/
def jsOrDefaultDuration : DurationInput → DurationInput
  | .num q => if q.mantissa = 0 then .num DEFAULT_SEGMENT_DURATION else .num q
  | .str s => if s = "" then .num DEFAULT_SEGMENT_DURATION else .str s
  | .absent => .num DEFAULT_SEGMENT_DURATION

/-- `parseFloat(x.toString())` (line 148): the identity on a number (its
decimal rendering parses back to itself), `parseFloat` on a string. -/
def parsedDurationOf : DurationInput → Option JSFloat
  | .num q => some (JSFloat.num q)
  | .str s => jsParseFloat s
  | .absent => none

inductive CreateOutcome
  | ok (sessionId : String) (segmentDuration : JSFloat)
  | validationError (msg : String)
deriving DecidableEq

def durationErrorMsg : String := "segmentDuration must be a positive number"

/-- The create-session route (video.ts lines 137-175): make the directory
(before validation, as the code does), apply the `||` default, parse,
reject `NaN` and non-positive values with a 400, otherwise record the
registry entry and respond. -/
def createSession (st : ServerState) (sessionId : String) (dur : DurationInput)
    (now : String) : CreateOutcome × ServerState :=
  let st1 := ensureDir sessionId st
  match parsedDurationOf (jsOrDefaultDuration dur) with
  | none => (.validationError durationErrorMsg, st1)
  | some q =>
    if jsFloatNonPos q then (.validationError durationErrorMsg, st1)
    else
      (.ok sessionId q,
       { st1 with registry := alistSet sessionId ⟨sessionId, q, now⟩ st1.registry })

/-- The duration inputs the route actually rejects: a negative number, or a
non-empty string that parses to `NaN` or to a non-positive value.  (The
number 0 and the empty string are falsy, so the `||` default rescues them
before validation, and the string "Infinity" parses positive and is
accepted.) -/
def isRejectedDuration : DurationInput → Bool
  | .num q => q.mantissa < 0
  | .str s =>
    if s = "" then false
    else
      match jsParseFloat s with
      | none => true
      | some v => jsFloatNonPos v
  | .absent => false

/-! ### Chunk upload (video.ts lines 177-251) -/

/-- `path.basename` on POSIX: strip any trailing separators, then keep the
part after the last separator. -/
def basename (s : String) : String :=
  let cs := s.data.reverse.dropWhile (fun c => c = '/')
  String.mk ((cs.takeWhile (fun c => c ≠ '/')).reverse)

/-- `String(chunkId).padStart(5, '0')`. -/
def padStart (n : ℕ) (c : Char) (s : String) : String :=
  if s.data.length < n then String.mk (List.replicate (n - s.data.length) c) ++ s else s

/-- The synthesized fragment name used when the client sends no filename
(video.ts line 213). -/
def defaultSegmentName (chunkId : String) : String :=
  "segment_" ++ padStart 5 '0' chunkId ++ ".mp4"

def initDefaultName : String := "init.mp4"

/-- `clientFilename ? path.basename(clientFilename) : fallback` — an absent
or empty (falsy) client filename selects the fallback. -/
def resolvedClientName (clientFilename : Option String) (fallback : String) : String :=
  match clientFilename with
  | some f => if f = "" then fallback else basename f
  | none => fallback

inductive ChunkOutcome
  | badRequest (msg : String)
  | initOk (filename : String)
  | chunkOk (id filename : String) (size : ℕ)
  | notFound
deriving DecidableEq

def chunkFieldMsg : String := "Form data must include a binary \"chunk\" field."

def initFormatMsg : String := "Init must be uploaded as .mp4 or .m4s (fragmented MP4 init)"

def segFormatMsg : String := "Only .mp4 or .m4s fragments are accepted"

/-- The chunk-upload route (video.ts lines 177-251).  `chunk` is the
uploaded byte payload (absent models a missing form field).  The handler
makes the session directory unconditionally, then either stores the init
fragment (no playlist regeneration) or stores the fragment, re-checks that
the directory exists, regenerates the playlist with the raw `chunkId` as
media-sequence value, and persists it. -/
def acceptChunk (st : ServerState) (sessionId chunkId : String) (isFirst : Bool)
    (clientFilename : Option String) (chunk : Option String) : ChunkOutcome × ServerState :=
  match chunk with
  | none => (.badRequest chunkFieldMsg, st)
  | some bytes =>
    let st1 := ensureDir sessionId st
    if isFirst then
      let initFilename := resolvedClientName clientFilename initDefaultName
      if hasMediaExt initFilename then
        (.initOk initFilename, writeFile sessionId initFilename bytes st1)
      else (.badRequest initFormatMsg, st1)
    else
      let filename := resolvedClientName clientFilename (defaultSegmentName chunkId)
      if hasMediaExt filename then
        let st2 := writeFile sessionId filename bytes st1
        match getDir sessionId st2 with
        | none => (.notFound, st2)
        | some d =>
          let pl := generateHLSPlaylist (d.map Prod.fst)
              (getSessionMetadata sessionId st2.registry) chunkId false
          (.chunkOk chunkId filename bytes.length,
           writeFile sessionId playlistFileName pl st2)
      else (.badRequest segFormatMsg, st1)

/-! ### Finalization (video.ts lines 253-285) -/

inductive FinalizeOutcome
  | ok (sessionId : String)
  | notFound
deriving DecidableEq

/-- The finalize route: 404 when the session directory is missing,
otherwise regenerate the playlist with sequence number 0 and the
end-of-stream tag, persist it, and only then delete the registry entry. -/
def finalizeSession (st : ServerState) (sessionId : String) : FinalizeOutcome × ServerState :=
  match getDir sessionId st with
  | none => (.notFound, st)
  | some d =>
    let pl := generateHLSPlaylist (d.map Prod.fst)
        (getSessionMetadata sessionId st.registry) ("0") true
    let st1 := writeFile sessionId playlistFileName pl st
    (.ok sessionId, { st1 with registry := cleanupSessionMetadata sessionId st1.registry })

/-! ### Startup reconciliation (video.ts lines 455-505, second variant)

`loadSessionsFromFilesystem` scans the storage root; for each subdirectory
it tries to read `playlist.m3u8` and extract `#EXT-X-TARGETDURATION:(\d+)`,
falling back to the default duration, and records a registry entry with the
directory's birthtime (or the current time).  Per-directory read failures
are modelled by `none` fields. -/

structure FsDirEntry where
  name : String
  isDir : Bool
  /-- `fs.readFile(playlistPath)`: `none` models a missing or unreadable playlist. -/
  playlistContent : Option String
  /-- `stats.birthtime.toISOString()`: `none` models a failing `stat`. -/
  birthtime : Option String
deriving DecidableEq

def targetDurationTag : List Char :=
  ['#', 'E', 'X', 'T', '-', 'X', '-', 'T', 'A', 'R', 'G', 'E', 'T', 'D', 'U', 'R', 'A', 'T',
   'I', 'O', 'N', ':']

/-- First match of `/#EXT-X-TARGETDURATION:(\d+)/`: find an occurrence of
the literal tag followed by at least one digit, take the maximal digit run,
parse with `parseInt`. -/
def findTargetDuration : List Char → Option ℕ
  | [] => none
  | c :: rest =>
    if startsWithSeq targetDurationTag (c :: rest) then
      let after := (c :: rest).drop targetDurationTag.length
      let ds := after.takeWhile Char.isDigit
      if ds.isEmpty then findTargetDuration rest else some (digitsToNat ds)
    else findTargetDuration rest

/-- Duration recovered for one directory: the target duration `parseInt`
computes (rounded to double precision) when the playlist exists and
declares one, the default otherwise. -/
def reconcileDuration (pl : Option String) : JSFloat :=
  match pl with
  | none => JSFloat.num DEFAULT_SEGMENT_DURATION
  | some content =>
    match findTargetDuration content.data with
    | some n =>
      match doubleRoundNat n with
      | .fin v => JSFloat.num (JSNum.ofNat v)
      | .inf => JSFloat.infinite false
    | none => JSFloat.num DEFAULT_SEGMENT_DURATION

def reconcileMeta (e : FsDirEntry) (now : String) : SessionMetadata :=
  ⟨e.name, reconcileDuration e.playlistContent, e.birthtime.getD now⟩

/-- `loadSessionsFromFilesystem`: walk the storage-root entries in order,
registering every subdirectory; files are ignored. -/
def loadSessionsFromFilesystem : List FsDirEntry → String → Registry → Registry
  | [], _, reg => reg
  | e :: rest, now, reg =>
    if e.isDir then
      loadSessionsFromFilesystem rest now (alistSet e.name (reconcileMeta e now) reg)
    else loadSessionsFromFilesystem rest now reg

/-! ### Spec-side playlist description (design doc section 4.2, step 4)

`specPlaylistEvent` renders the playlist as the specification describes it
for an integer resolved duration `n`: each tag in order, the target
duration in integer seconds, each `EXTINF` duration formatted to exactly
three decimal places.  Comparing it with `generateHLSPlaylist` settles the
format claims. -/

/-- A duration `n` (integer seconds) formatted to exactly three decimal
places, as the spec's wording requires. -/
def specThreeDecimals (n : ℕ) : String := natToString n ++ ".000"

def specPlaylistEvent (n : ℕ) (files : List String) (sequenceId : String)
    (isFinal : Bool) : String :=
  "#EXTM3U\n" ++ "#EXT-X-VERSION:7\n" ++ "#EXT-X-PLAYLIST-TYPE:EVENT\n"
    ++ ("#EXT-X-TARGETDURATION:" ++ natToString n ++ "\n")
    ++ ("#EXT-X-MEDIA-SEQUENCE:" ++ sequenceId ++ "\n")
    ++ mapTag files
    ++ "\n"
    ++ String.join ((segmentFilesOf files).map
        (fun f => "#EXTINF:" ++ specThreeDecimals n ++ ",\n" ++ f ++ "\n"))
    ++ (if isFinal then "#EXT-X-ENDLIST\n" else "")

/-! ### String helper lemmas -/

theorem strDataAppend (a b : String) : (a ++ b).data = a.data ++ b.data := rfl

theorem strEqOfData (a b : String) (h : a.data = b.data) : a = b := by
  cases a; cases b; exact congrArg String.mk h

theorem strAppendEmpty (a : String) : a ++ "" = a := by
  apply strEqOfData
  show a.data ++ [] = a.data
  simp

theorem strEmptyAppend (a : String) : "" ++ a = a := by
  cases a; exact congrArg String.mk rfl

theorem strAppendAssoc (a b c : String) : a ++ b ++ c = a ++ (b ++ c) := by
  apply strEqOfData
  show (a.data ++ b.data) ++ c.data = a.data ++ (b.data ++ c.data)
  simp

/-! ### Association-list lemmas -/

theorem alistLookup_map_set_self {α : Type} (k : String) (v : α) (l : List (String × α)) :
    alistLookup k (l.map (fun p => if p.1 = k then (k, v) else p)) =
      (alistLookup k l).map (fun _ => v) := by
  induction l with
  | nil => rfl
  | cons p t ih =>
    by_cases hp : p.1 = k
    · simp [alistLookup, hp]
    · simp [alistLookup, hp, ih]

theorem alistLookup_map_set_ne {α : Type} {k k2 : String} (h : k2 ≠ k) (v : α)
    (l : List (String × α)) :
    alistLookup k2 (l.map (fun p => if p.1 = k then (k, v) else p)) = alistLookup k2 l := by
  induction l with
  | nil => rfl
  | cons p t ih =>
    by_cases hp : p.1 = k
    · simp [alistLookup, hp, Ne.symm h, ih]
    · simp [alistLookup, hp, ih]

theorem alistLookup_append_ne {α : Type} {k k2 : String} (h : k2 ≠ k) (v : α)
    (l : List (String × α)) : alistLookup k2 (l ++ [(k, v)]) = alistLookup k2 l := by
  induction l with
  | nil => simp [alistLookup, Ne.symm h]
  | cons p t ih =>
    by_cases hp : p.1 = k2
    · simp [alistLookup, hp]
    · simp [alistLookup, hp, ih]

theorem alistLookup_append_self_none {α : Type} (k : String) (v : α)
    (l : List (String × α)) (h : alistLookup k l = none) :
    alistLookup k (l ++ [(k, v)]) = some v := by
  induction l with
  | nil => simp [alistLookup]
  | cons p t ih =>
    by_cases hp : p.1 = k
    · simp [alistLookup, hp] at h
    · simp [alistLookup, hp] at h ⊢
      exact ih h

theorem alistLookup_set_self {α : Type} (k : String) (v : α) (l : List (String × α)) :
    alistLookup k (alistSet k v l) = some v := by
  unfold alistSet
  by_cases h : alistContains k l = true
  · rw [if_pos h, alistLookup_map_set_self]
    unfold alistContains at h
    obtain ⟨d, hd⟩ := Option.isSome_iff_exists.mp h
    simp [hd]
  · rw [if_neg h]
    refine alistLookup_append_self_none k v l ?_
    unfold alistContains at h
    cases hx : alistLookup k l with
    | none => rfl
    | some d => rw [hx] at h; simp at h

theorem alistLookup_set_ne {α : Type} {k k2 : String} (h : k2 ≠ k) (v : α)
    (l : List (String × α)) : alistLookup k2 (alistSet k v l) = alistLookup k2 l := by
  unfold alistSet
  split
  · exact alistLookup_map_set_ne h v l
  · exact alistLookup_append_ne h v l

theorem alistLookup_delete_self {α : Type} (k : String) (l : List (String × α)) :
    alistLookup k (alistDelete k l) = none := by
  induction l with
  | nil => rfl
  | cons p t ih =>
    by_cases hp : p.1 = k
    · simpa [alistDelete, hp, alistLookup] using ih
    · simpa [alistDelete, hp, alistLookup] using ih

theorem alistLookup_update_self {α : Type} (k : String) (f : α → α) (l : List (String × α)) :
    alistLookup k (alistUpdate k f l) = (alistLookup k l).map f := by
  unfold alistUpdate
  induction l with
  | nil => rfl
  | cons p t ih =>
    by_cases hp : p.1 = k
    · simp [alistLookup, hp]
    · simp [alistLookup, hp, ih]

theorem alistLookup_update_ne {α : Type} {k k2 : String} (h : k2 ≠ k) (f : α → α)
    (l : List (String × α)) : alistLookup k2 (alistUpdate k f l) = alistLookup k2 l := by
  unfold alistUpdate
  induction l with
  | nil => rfl
  | cons p t ih =>
    by_cases hp : p.1 = k
    · simp [alistLookup, hp, Ne.symm h, ih]
    · simp [alistLookup, hp, ih]

/-! ### Server-state lemmas -/

theorem ensureDir_registry (sid : String) (st : ServerState) :
    (ensureDir sid st).registry = st.registry := by
  unfold ensureDir; split <;> rfl

theorem writeFile_registry (sid n c : String) (st : ServerState) :
    (writeFile sid n c st).registry = st.registry := rfl

theorem getDir_ensure_self (sid : String) (st : ServerState) :
    getDir sid (ensureDir sid st) = some ((getDir sid st).getD []) := by
  unfold ensureDir getDir alistContains
  by_cases h : (alistLookup sid st.dirs).isSome = true
  · rw [if_pos h]
    obtain ⟨d, hd⟩ := Option.isSome_iff_exists.mp h
    simp [hd]
  · rw [if_neg h]
    have hn : alistLookup sid st.dirs = none := by
      cases hx : alistLookup sid st.dirs with
      | none => rfl
      | some d => rw [hx] at h; simp at h
    show alistLookup sid (st.dirs ++ [(sid, [])]) = some ((alistLookup sid st.dirs).getD [])
    rw [alistLookup_append_self_none sid [] st.dirs hn, hn]
    rfl

theorem getDir_ensure_ne {sid sid2 : String} (h : sid2 ≠ sid) (st : ServerState) :
    getDir sid2 (ensureDir sid st) = getDir sid2 st := by
  unfold ensureDir getDir
  split
  · rfl
  · exact alistLookup_append_ne h [] st.dirs

theorem getDir_write_self (sid n c : String) (st : ServerState) :
    getDir sid (writeFile sid n c st) = (getDir sid st).map (alistSet n c) := by
  unfold writeFile getDir
  exact alistLookup_update_self sid _ st.dirs

theorem getDir_write_ne {sid sid2 : String} (h : sid2 ≠ sid) (n c : String) (st : ServerState) :
    getDir sid2 (writeFile sid n c st) = getDir sid2 st := by
  unfold writeFile getDir
  exact alistLookup_update_ne h _ st.dirs

theorem readFileSt_write_ne {name fname : String} (h : fname ≠ name) (sid c : String)
    (st : ServerState) : readFileSt sid fname (writeFile sid name c st) = readFileSt sid fname st := by
  unfold readFileSt
  rw [getDir_write_self]
  cases hx : getDir sid st with
  | none => rfl
  | some d => simp [alistLookup_set_ne h]

theorem getDir_registry_irrelevant (sid : String) (st : ServerState) (reg : Registry) :
    getDir sid { st with registry := reg } = getDir sid st := rfl

theorem readFileSt_registry_irrelevant (sid fname : String) (st : ServerState)
    (reg : Registry) :
    readFileSt sid fname { st with registry := reg } = readFileSt sid fname st := rfl

theorem readFileSt_ensure (sid fname : String) (st : ServerState) :
    readFileSt sid fname (ensureDir sid st) = readFileSt sid fname st := by
  unfold readFileSt
  rw [getDir_ensure_self]
  cases hx : getDir sid st with
  | none => simp [alistLookup]
  | some d => simp

/-! ### Sorting lemmas for the fragment ordering -/

theorem jsNumLe_total (u v : JSParsedInt) (h : ¬ (jsNumLe u v = true)) : jsNumLe v u = true := by
  cases u <;> cases v <;> simp [jsNumLe] at h ⊢ <;> omega

theorem jsNumLe_trans {u v w : JSParsedInt} (h1 : jsNumLe u v = true)
    (h2 : jsNumLe v w = true) : jsNumLe u w = true := by
  cases u <;> cases v <;> cases w <;> simp [jsNumLe] at h1 h2 ⊢ <;> omega

theorem mem_insertByIdx {y x : String} {l : List String} :
    y ∈ insertByIdx x l ↔ y = x ∨ y ∈ l := by
  induction l with
  | nil => simp [insertByIdx]
  | cons z zs ih =>
    by_cases h : jsNumLe (chunkIdx x) (chunkIdx z) = true
    · simp [insertByIdx, h]
    · simp [insertByIdx, h, ih]
      tauto

theorem mem_sortByIdx {y : String} {l : List String} (h : y ∈ sortByIdx l) : y ∈ l := by
  induction l with
  | nil => simp [sortByIdx] at h
  | cons z zs ih =>
    rw [sortByIdx, mem_insertByIdx] at h
    rcases h with h | h
    · simp [h]
    · simp [ih h]

theorem pairwise_insertByIdx (x : String) (l : List String)
    (h : l.Pairwise (fun a b => jsNumLe (chunkIdx a) (chunkIdx b) = true)) :
    (insertByIdx x l).Pairwise (fun a b => jsNumLe (chunkIdx a) (chunkIdx b) = true) := by
  induction l with
  | nil => simp [insertByIdx]
  | cons z zs ih =>
    rw [List.pairwise_cons] at h
    obtain ⟨hz, hzs⟩ := h
    by_cases hle : jsNumLe (chunkIdx x) (chunkIdx z) = true
    · rw [insertByIdx, if_pos hle, List.pairwise_cons]
      refine ⟨?_, List.pairwise_cons.mpr ⟨hz, hzs⟩⟩
      intro w hw
      rcases List.mem_cons.mp hw with hw | hw
      · exact hw ▸ hle
      · exact jsNumLe_trans hle (hz w hw)
    · rw [insertByIdx, if_neg hle, List.pairwise_cons]
      refine ⟨?_, ih hzs⟩
      intro w hw
      rcases mem_insertByIdx.mp hw with hw | hw
      · exact hw ▸ jsNumLe_total _ _ hle
      · exact hz w hw

theorem pairwise_sortByIdx (l : List String) :
    (sortByIdx l).Pairwise (fun a b => jsNumLe (chunkIdx a) (chunkIdx b) = true) := by
  induction l with
  | nil => simp [sortByIdx]
  | cons z zs ih => exact pairwise_insertByIdx z _ ih

/-! ### Rendering lemmas -/

theorem digitChar_isDigit {n : ℕ} (h : n < 10) : (digitChar n).isDigit = true := by
  interval_cases n <;> decide

theorem natCharsAux_digits (fuel : ℕ) : ∀ n, ∀ c ∈ natCharsAux fuel n, c.isDigit = true := by
  induction fuel with
  | zero => intro n c hc; simp [natCharsAux] at hc
  | succ fuel ih =>
    intro n c hc
    by_cases h : n < 10
    · simp [natCharsAux, h] at hc
      subst hc; exact digitChar_isDigit h
    · simp [natCharsAux, h] at hc
      rcases hc with hc | hc
      · exact ih _ c hc
      · subst hc
        exact digitChar_isDigit (Nat.mod_lt _ (by norm_num))

theorem natChars_digits (n : ℕ) {c : Char} (hc : c ∈ natChars n) : c.isDigit = true :=
  natCharsAux_digits (n + 1) n c hc

theorem natChars_length_pos (n : ℕ) : 1 ≤ (natChars n).length := by
  show 1 ≤ (natCharsAux (n + 1) n).length
  rw [natCharsAux]
  split <;> simp

theorem natCharsAux_length_le (fuel : ℕ) :
    ∀ n d, 0 < d → n < 10 ^ d → (natCharsAux fuel n).length ≤ d := by
  induction fuel with
  | zero => intro n d hd _; simp [natCharsAux]
  | succ fuel ih =>
    intro n d hd hn
    by_cases h : n < 10
    · simp [natCharsAux, h]; omega
    · rw [natCharsAux, if_neg h, List.length_append]
      have hd2 : 2 ≤ d := by
        by_contra hc
        have hd1 : d = 1 := by omega
        subst hd1
        simp at hn
        omega
      have hdiv : n / 10 < 10 ^ (d - 1) := by
        rw [Nat.div_lt_iff_lt_mul (by norm_num)]
        calc n < 10 ^ d := hn
        _ = 10 ^ (d - 1) * 10 := by
          rw [← pow_succ]
          congr 1
          omega
      have := ih (n / 10) (d - 1) (by omega) hdiv
      simp
      omega

theorem natChars_length_le_21 {n : ℕ} (h : n < 10 ^ 21) : (natChars n).length ≤ 21 :=
  natCharsAux_length_le (n + 1) n 21 (by norm_num) h

/-- Below `10 ^ 21` an integer renders positionally, so the interpolated
text is exactly its digit string (beyond, JS switches to `1e+21` form). -/
theorem jsNumToString_ofNat {n : ℕ} (h : n < 10 ^ 21) :
    jsNumToString (JSNum.ofNat n) = natToString n := by
  by_cases h0 : n = 0
  · subst h0; decide
  · have hm0 : ¬ (((n : ℤ)) = 0) := by exact_mod_cast h0
    have hneg : ¬ ((n : ℤ) < 0) := not_lt.mpr (Int.natCast_nonneg n)
    have hL1 := natChars_length_pos n
    have hL21 : (natChars n).length ≤ 21 := natChars_length_le_21 h
    show (if (n : ℤ) = 0 then "0"
      else (if (n : ℤ) < 0 then "-" else "") ++ jsNumBody ((n : ℤ)).natAbs 0) = natToString n
    rw [if_neg hm0, if_neg hneg, strEmptyAppend, Int.natAbs_ofNat]
    unfold jsNumBody
    split
    · rw [if_pos rfl]
      rfl
    · rename_i hcond
      exact absurd ⟨by push_cast; omega, by push_cast; omega⟩ hcond

theorem expMantissaStr_chars (ds : List Char) (hds : ∀ z ∈ ds, z.isDigit = true) :
    ∀ c ∈ (expMantissaStr ds).data, c.isDigit = true ∨ c = '.' := by
  intro c hc
  cases ds with
  | nil =>
    simp [expMantissaStr] at hc
    subst hc
    left; decide
  | cons c2 rest =>
    rw [expMantissaStr] at hc
    by_cases hr : rest.isEmpty
    · rw [if_pos hr] at hc
      simp at hc
      subst hc
      exact Or.inl (hds _ (List.mem_cons_self _ _))
    · rw [if_neg hr] at hc
      rw [strDataAppend, strDataAppend] at hc
      rcases List.mem_append.mp hc with hc | hc
      rcases List.mem_append.mp hc with hc | hc
      · simp at hc
        subst hc
        exact Or.inl (hds _ (List.mem_cons_self _ _))
      · simp at hc; tauto
      · simp at hc
        exact Or.inl (hds c (List.mem_cons_of_mem _ hc))

set_option maxHeartbeats 1000000 in
/-- Every character of the magnitude rendering is a decimal digit, the
point, the exponent marker, or a sign. -/
theorem jsNumBody_chars (m e : ℕ) :
    ∀ c ∈ (jsNumBody m e).data,
      c.isDigit = true ∨ c = '.' ∨ c = 'e' ∨ c = '+' ∨ c = '-' := by
  intro c hc
  have hds : ∀ z ∈ natChars m, z.isDigit = true := fun z hz => natChars_digits _ hz
  have hstrip : ∀ z ∈ stripTrailingZeros (natChars m), z.isDigit = true := by
    intro z hz
    unfold stripTrailingZeros at hz
    rw [List.mem_reverse] at hz
    have h2 := (List.dropWhile_sublist _).subset hz
    rw [List.mem_reverse] at h2
    exact hds z h2
  unfold jsNumBody at hc
  split at hc
  · split at hc
    · exact Or.inl (hds c hc)
    · rw [strDataAppend, strDataAppend] at hc
      rcases List.mem_append.mp hc with hc | hc
      rcases List.mem_append.mp hc with hc | hc
      · exact Or.inl (hds c (List.take_subset _ _ hc))
      · simp at hc; tauto
      · exact Or.inl (hds c (List.drop_subset _ _ hc))
  · split at hc
    · rw [strDataAppend, strDataAppend] at hc
      rcases List.mem_append.mp hc with hc | hc
      rcases List.mem_append.mp hc with hc | hc
      · simp at hc
        rcases hc with rfl | rfl
        · left; decide
        · tauto
      · rw [List.eq_of_mem_replicate hc]; left; decide
      · exact Or.inl (hds c hc)
    · rw [strDataAppend, strDataAppend] at hc
      rcases List.mem_append.mp hc with hc | hc
      rcases List.mem_append.mp hc with hc | hc
      · rcases expMantissaStr_chars _ hstrip c hc with h | h
        · exact Or.inl h
        · tauto
      · revert hc
        split <;> intro hc
        · rw [show ("e-" : String).data = ['e', '-'] from rfl] at hc
          rcases List.mem_cons.mp hc with rfl | hc2
          · tauto
          · rcases List.mem_cons.mp hc2 with rfl | hc3
            · tauto
            · simp at hc3
        · rw [show ("e+" : String).data = ['e', '+'] from rfl] at hc
          rcases List.mem_cons.mp hc with rfl | hc2
          · tauto
          · rcases List.mem_cons.mp hc2 with rfl | hc3
            · tauto
            · simp at hc3
      · exact Or.inl (natChars_digits _ hc)

/-- Every character of a rendered finite value is a decimal digit, the
point, the exponent marker, or a sign: no `#` and no newline, so no
playlist tag can be smuggled in through the interpolated duration. -/
theorem jsNumToString_chars (q : JSNum) :
    ∀ c ∈ (jsNumToString q).data,
      c.isDigit = true ∨ c = '.' ∨ c = 'e' ∨ c = '+' ∨ c = '-' := by
  intro c hc
  unfold jsNumToString at hc
  split at hc
  · simp at hc; subst hc; left; decide
  · rw [strDataAppend] at hc
    rcases List.mem_append.mp hc with hc | hc
    · revert hc
      split
      · intro hc; simp at hc; subst hc; tauto
      · intro hc; simp at hc
    · exact jsNumBody_chars _ _ c hc

/-- The finalized playlist is the non-finalized text with the single
end-of-stream tag appended. -/
theorem generate_final_append (files : List String) (md : Option SessionMetadata)
    (seq : String) :
    generateHLSPlaylist files md seq true =
      generateHLSPlaylist files md seq false ++ "#EXT-X-ENDLIST\n" := by
  unfold generateHLSPlaylist
  simp [strAppendEmpty, strAppendAssoc]

/-! ### Filename lemmas -/

theorem startsWithSeq_head_ne {a b : Char} (h : a ≠ b) (ns hs : List Char) :
    startsWithSeq (a :: ns) (b :: hs) = false := by
  show (decide (a = b) && startsWithSeq ns hs) = false
  rw [decide_eq_false h, Bool.false_and]

theorem default_name_not_chunk (ck : String) :
    isChunkName (defaultSegmentName ck) = false := by
  have hdata : (defaultSegmentName ck).data =
      's' :: ("egment_" ++ padStart 5 '0' ck ++ ".mp4").data := by
    show (("segment_" ++ padStart 5 '0' ck) ++ ".mp4").data = _
    simp only [strDataAppend]
    simp
  unfold isChunkName parseChunkIdx
  rw [hdata]
  show (matchChunkLower ('s' :: lowerChars (("egment_" ++ padStart 5 '0' ck ++ ".mp4").data))).isSome = false
  unfold matchChunkLower
  rw [startsWithSeq_head_ne (show ('c' : Char) ≠ 's' from by decide)]
  rfl

/-! ### Reconciliation lemmas -/

theorem load_lookup_of_no_dir (rest : List FsDirEntry) (now k : String) (reg : Registry)
    (hk : ∀ e ∈ rest, e.isDir = true → ¬ (e.name = k)) :
    alistLookup k (loadSessionsFromFilesystem rest now reg) = alistLookup k reg := by
  induction rest generalizing reg with
  | nil => rfl
  | cons b bs ih =>
    rw [loadSessionsFromFilesystem]
    by_cases hb : b.isDir = true
    · rw [if_pos hb]
      rw [ih _ (fun e he hd => hk e (List.mem_cons_of_mem b he) hd)]
      exact alistLookup_set_ne (fun hh => hk b (List.mem_cons_self b bs) hb hh.symm) _ reg
    · rw [if_neg hb]
      exact ih _ (fun e he hd => hk e (List.mem_cons_of_mem b he) hd)

theorem load_restores_entry (entries : List FsDirEntry) (now : String) (reg : Registry)
    (e : FsDirEntry)
    (hnd : ((entries.filter (fun x => x.isDir)).map FsDirEntry.name).Nodup)
    (hmem : e ∈ entries) (hdir : e.isDir = true) :
    alistLookup e.name (loadSessionsFromFilesystem entries now reg) =
      some (reconcileMeta e now) := by
  induction entries generalizing reg with
  | nil => simp at hmem
  | cons a rest ih =>
    rcases List.mem_cons.mp hmem with rfl | hmem2
    · rw [loadSessionsFromFilesystem, if_pos hdir]
      rw [List.filter_cons_of_pos (by simpa using hdir), List.map_cons,
        List.nodup_cons] at hnd
      have hno : ∀ e2 ∈ rest, e2.isDir = true → ¬ (e2.name = e.name) := by
        intro e2 he2 hd2 hname
        exact hnd.1 (hname ▸ List.mem_map_of_mem FsDirEntry.name
          (List.mem_filter.mpr ⟨he2, by simpa using hd2⟩))
      rw [load_lookup_of_no_dir rest now e.name _ hno]
      exact alistLookup_set_self _ _ _
    · rw [loadSessionsFromFilesystem]
      by_cases ha : a.isDir = true
      · rw [if_pos ha]
        refine ih _ ?_ hmem2
        rw [List.filter_cons_of_pos (by simpa using ha), List.map_cons,
          List.nodup_cons] at hnd
        exact hnd.2
      · rw [if_neg ha]
        refine ih _ ?_ hmem2
        rwa [List.filter_cons_of_neg (by simpa using ha)] at hnd

/-! ### Claim theorems -/

/-- C1: playlist generation is deterministic and idempotent — two calls of
`generateHLSPlaylist` with the same directory listing, registry entry,
sequence number and finalize flag (no intervening chunk upload) produce
byte-identical playlist text. -/
theorem generate_playlist_deterministic (files1 files2 : List String)
    (md1 md2 : Option SessionMetadata) (seq1 seq2 : String) (fin1 fin2 : Bool)
    (hf : files1 = files2) (hm : md1 = md2) (hs : seq1 = seq2) (hb : fin1 = fin2) :
    generateHLSPlaylist files1 md1 seq1 fin1 = generateHLSPlaylist files2 md2 seq2 fin2 := by
  rw [hf, hm, hs, hb]

/-- C1 witness: the determinism theorem applied at a concrete listing. -/
theorem generate_playlist_deterministic_witness :
    generateHLSPlaylist ["init.mp4", "chunk1.mp4"] none ("1") false =
      generateHLSPlaylist ["init.mp4", "chunk1.mp4"] none ("1") false :=
  generate_playlist_deterministic _ _ _ _ _ _ _ _ rfl rfl rfl rfl

/-- C2 counterexample: `parseInt` rounds to double precision, so the
distinct indices 9007199254740993 and 9007199254740992 (`2^53 + 1` and
`2^53`) collide to the same sort key; the comparator ties, the stable sort
keeps the listing order, and the playlist emits index `2^53 + 1` before
`2^53` — not ascending by the integer encoded in the filename. -/
theorem segment_ordering_not_by_exact_integer :
    segmentFilesOf ["chunk9007199254740993.mp4", "chunk9007199254740992.mp4"] =
      ["chunk9007199254740993.mp4", "chunk9007199254740992.mp4"] ∧
    (parseChunkIdx ("chunk9007199254740992.mp4")).getD 0 <
      (parseChunkIdx ("chunk9007199254740993.mp4")).getD 0 := by
  constructor
  · decide
  · decide

/-- C2 (amended): the emitted fragments are sorted ascending by the value
`parseInt` actually computes — the encoded integer rounded to double
precision — with collisions (possible only at indices at or beyond `2^53`)
keeping the directory-listing order; below `2^53` that order coincides
with the order of the encoded integers (never lexicographic), and any
listing holding exactly the fragments with indices 10, 2, 1 — in whatever
order the filesystem returns them — yields the order 1, 2, 10. -/
theorem segment_ordering_numeric :
    (∀ files : List String,
      (segmentFilesOf files).Pairwise (fun a b => jsNumLe (chunkIdx a) (chunkIdx b) = true)) ∧
    (∀ a b : ℕ, a < 2 ^ 53 → b < 2 ^ 53 →
      (jsNumLe (doubleRoundNat a) (doubleRoundNat b) = true ↔ a ≤ b)) ∧
    (∀ l : List String, l.Perm ["chunk10.mp4", "chunk2.mp4", "chunk1.mp4"] →
      segmentFilesOf l = ["chunk1.mp4", "chunk2.mp4", "chunk10.mp4"]) := by
  refine ⟨?_, ?_, ?_⟩
  · intro files
    exact pairwise_sortByIdx _
  · intro a b ha hb
    rw [doubleRoundNat, if_pos ha, doubleRoundNat, if_pos hb]
    simp [jsNumLe]
  · intro l h
    have hm : l ∈ (["chunk10.mp4", "chunk2.mp4", "chunk1.mp4"] : List String).permutations' :=
      List.mem_permutations'.mpr h
    fin_cases hm <;> decide

/-- C2 witness: the upload order 10, 2, 1 of the claim. -/
theorem segment_ordering_numeric_witness :
    segmentFilesOf ["chunk10.mp4", "chunk2.mp4", "chunk1.mp4"] =
      ["chunk1.mp4", "chunk2.mp4", "chunk10.mp4"] :=
  segment_ordering_numeric.2.2 _ (List.Perm.refl _)

/-- C3 counterexample: after a successful finalize the session directory
still exists, so a second finalize on the same id succeeds with `ok` instead
of failing with `NotFoundError` as the claim states. -/
theorem finalize_twice_not_notFound :
    (finalizeSession
        (finalizeSession
          ⟨[(("s2"), ⟨"s2", JSFloat.num (JSNum.ofNat 4), "t0"⟩)],
           [(("s2"), [(("init.mp4"), ("I")), (("chunk1.mp4"), ("A"))])]⟩ ("s2")).2
        ("s2")).1 ≠ FinalizeOutcome.notFound ∧
    (finalizeSession
        (finalizeSession
          ⟨[(("s2"), ⟨"s2", JSFloat.num (JSNum.ofNat 4), "t0"⟩)],
           [(("s2"), [(("init.mp4"), ("I")), (("chunk1.mp4"), ("A"))])]⟩ ("s2")).2
        ("s2")).1 = FinalizeOutcome.ok ("s2") := by
  constructor
  · decide
  · decide

/-- C3 (amended): whenever the session directory exists, finalize succeeds,
persists a playlist equal to the non-final text with exactly one
end-of-stream tag appended, and removes the session id from the in-memory
registry; a second finalize on the same id succeeds again (the directory
outlives finalization) — it fails with `NotFoundError` only when the
directory is absent. -/
theorem finalize_removes_registry_only (st : ServerState) (sid : String) (d : Dir)
    (h : getDir sid st = some d) :
    (finalizeSession st sid).1 = FinalizeOutcome.ok sid ∧
    getSessionMetadata sid (finalizeSession st sid).2.registry = none ∧
    readFileSt sid playlistFileName (finalizeSession st sid).2 =
      some (generateHLSPlaylist (d.map Prod.fst) (getSessionMetadata sid st.registry)
        ("0") false ++ "#EXT-X-ENDLIST\n") ∧
    (finalizeSession (finalizeSession st sid).2 sid).1 = FinalizeOutcome.ok sid := by
  have hred : finalizeSession st sid =
      (FinalizeOutcome.ok sid,
        { writeFile sid playlistFileName
            (generateHLSPlaylist (d.map Prod.fst) (getSessionMetadata sid st.registry)
              ("0") true) st with
          registry := cleanupSessionMetadata sid st.registry }) := by
    unfold finalizeSession
    rw [h]
    rfl
  rw [hred]
  refine ⟨rfl, alistLookup_delete_self sid st.registry, ?_, ?_⟩
  · rw [readFileSt_registry_irrelevant]
    unfold readFileSt
    rw [getDir_write_self, h]
    show alistLookup playlistFileName (alistSet playlistFileName
        (generateHLSPlaylist (d.map Prod.fst) (getSessionMetadata sid st.registry) ("0") true)
        d) =
      some (generateHLSPlaylist (d.map Prod.fst) (getSessionMetadata sid st.registry)
        ("0") false ++ "#EXT-X-ENDLIST\n")
    rw [alistLookup_set_self, generate_final_append]
  · unfold finalizeSession
    rw [getDir_registry_irrelevant, getDir_write_self, h]
    rfl

/-- C3 witness: the amended finalize behaviour at a concrete one-fragment
session. -/
theorem finalize_removes_registry_only_witness :
    (finalizeSession
        ⟨[(("s3"), ⟨"s3", JSFloat.num (JSNum.ofNat 4), "t0"⟩)],
         [(("s3"), [(("chunk1.mp4"), ("A"))])]⟩ ("s3")).1 = FinalizeOutcome.ok ("s3") :=
  (finalize_removes_registry_only
    ⟨[(("s3"), ⟨"s3", JSFloat.num (JSNum.ofNat 4), "t0"⟩)],
     [(("s3"), [(("chunk1.mp4"), ("A"))])]⟩
    ("s3") [(("chunk1.mp4"), ("A"))] (by decide)).1

/-- C4 counterexample: the request duration 0 is non-positive, yet the `||`
defaulting replaces the falsy 0 with the default before validation, so the
session is created with duration 5 and a registry entry is recorded —
no `ValidationError` is raised. -/
theorem createSession_zero_duration_accepted :
    (createSession ⟨[], []⟩ ("s0") (DurationInput.num ⟨0, 0⟩) ("t0")).1 =
      CreateOutcome.ok ("s0") (JSFloat.num DEFAULT_SEGMENT_DURATION) ∧
    getSessionMetadata ("s0")
        (createSession ⟨[], []⟩ ("s0") (DurationInput.num ⟨0, 0⟩) ("t0")).2.registry =
      some ⟨"s0", JSFloat.num DEFAULT_SEGMENT_DURATION, "t0"⟩ := by
  constructor
  · decide
  · decide

/-- C4 (amended): a negative numeric duration, or a non-empty string
duration that does not parse to a positive number, fails with the
validation error and records no registry entry; a duration of zero (or an
empty string) is falsy and is silently replaced by the default duration 5,
after which creation succeeds. -/
theorem createSession_rejects_invalid (st : ServerState) (sid now : String)
    (dur : DurationInput) (h : isRejectedDuration dur = true) :
    (createSession st sid dur now).1 = CreateOutcome.validationError durationErrorMsg ∧
    (createSession st sid dur now).2.registry = st.registry := by
  cases dur with
  | num q =>
    have hq : q.mantissa < 0 := by simpa [isRejectedDuration] using h
    have h0 : ¬ (q.mantissa = 0) := by omega
    have hfn : jsFloatNonPos (JSFloat.num q) = true := by
      simp [jsFloatNonPos]
      omega
    constructor
    · simp [createSession, jsOrDefaultDuration, parsedDurationOf, h0, hfn]
    · simp [createSession, jsOrDefaultDuration, parsedDurationOf, h0, hfn, ensureDir_registry]
  | str s =>
    by_cases hs : s = ""
    · simp [isRejectedDuration, hs] at h
    · cases hp : jsParseFloat s with
      | none =>
        constructor <;>
          simp [createSession, jsOrDefaultDuration, parsedDurationOf, hs, hp, ensureDir_registry]
      | some v =>
        have hfn : jsFloatNonPos v = true := by simpa [isRejectedDuration, hs, hp] using h
        constructor <;>
          simp [createSession, jsOrDefaultDuration, parsedDurationOf, hs, hp, hfn,
            ensureDir_registry]
  | absent => simp [isRejectedDuration] at h

/-- C4 witness: a negative duration is rejected and leaves the registry
empty. -/
theorem createSession_rejects_invalid_witness :
    (createSession ⟨[], []⟩ ("s4") (DurationInput.num ⟨-3, 0⟩) ("t0")).1 =
      CreateOutcome.validationError durationErrorMsg ∧
    (createSession ⟨[], []⟩ ("s4") (DurationInput.num ⟨-3, 0⟩) ("t0")).2.registry =
      (⟨[], []⟩ : ServerState).registry :=
  createSession_rejects_invalid _ _ _ _ (by decide)

/-- C5 counterexample: with the reachable resolved duration 4.5 (positive,
stored by a create request with `segmentDuration = 4.5`) and one fragment
on disk, the playlist does not contain the duration formatted to three
decimal places (`#EXTINF:4.500,`); it contains `#EXTINF:4.5.000,` instead,
because the code appends the literal text ".000" to the interpolated
number, and the target-duration tag carries 4.5, not an integer.  At the
integer duration `10^21` (also reachable) the interpolation uses JS
exponent notation, emitting `1e+21` rather than the digit string, which
forces the amended claim's `n < 10^21` bound. -/
theorem extinf_not_three_decimals :
    resolvedDuration (some ⟨"s5", JSFloat.num ⟨45, 1⟩, "t0"⟩) = JSFloat.num ⟨45, 1⟩ ∧
    (0 : ℤ) < (⟨45, 1⟩ : JSNum).mantissa ∧
    containsSeq (("#EXTINF:4.500,").data)
      ((generateHLSPlaylist ["chunk0.mp4"]
        (some ⟨"s5", JSFloat.num ⟨45, 1⟩, "t0"⟩) ("0") false).data) = false ∧
    containsSeq (("#EXTINF:4.5.000,").data)
      ((generateHLSPlaylist ["chunk0.mp4"]
        (some ⟨"s5", JSFloat.num ⟨45, 1⟩, "t0"⟩) ("0") false).data) = true ∧
    containsSeq (("#EXT-X-TARGETDURATION:4.5\n").data)
      ((generateHLSPlaylist ["chunk0.mp4"]
        (some ⟨"s5", JSFloat.num ⟨45, 1⟩, "t0"⟩) ("0") false).data) = true ∧
    containsSeq (("#EXT-X-TARGETDURATION:1e+21\n").data)
      ((generateHLSPlaylist ["chunk0.mp4"]
        (some ⟨"s5", JSFloat.num ⟨10 ^ 21, 0⟩, "t0"⟩) ("0") false).data) = true ∧
    containsSeq (("#EXTINF:1e+21.000,").data)
      ((generateHLSPlaylist ["chunk0.mp4"]
        (some ⟨"s5", JSFloat.num ⟨10 ^ 21, 0⟩, "t0"⟩) ("0") false).data) = true := by
  refine ⟨rfl, by decide, by decide, by decide, by decide, by decide, by decide⟩

/-- C5 (amended): when the resolved segment duration is a positive integer
`n` below `10^21` (the JS positional-rendering range), the generated
playlist is exactly the spec's enumeration — the extended-M3U header,
version tag, event playlist-type tag, target-duration tag carrying `n` in
integer seconds, media-sequence tag carrying the caller's sequence id
verbatim, the init-map tag iff an init fragment was found, a blank
separator line, one EXTINF/filename pair per sorted fragment with the
duration formatted to exactly three decimal places, and the end-of-stream
tag last iff finalize is set.  (For non-integer durations the
interpolation yields `<d>.000`, and at `10^21` and beyond it yields
exponent notation, per the counterexample.) -/
theorem generate_matches_spec_for_integer_duration (files : List String)
    (md : Option SessionMetadata) (seq : String) (isFinal : Bool) (n : ℕ) (_hn : 0 < n)
    (hn21 : n < 10 ^ 21) (h : resolvedDuration md = JSFloat.num (JSNum.ofNat n)) :
    generateHLSPlaylist files md seq isFinal = specPlaylistEvent n files seq isFinal := by
  unfold generateHLSPlaylist specPlaylistEvent specThreeDecimals
  rw [h]
  simp [jsFloatToString, jsNumToString_ofNat hn21, strAppendAssoc]

/-- C5 witness: the spec-shaped playlist at duration 4 with an init
fragment, two fragments and finalize set. -/
theorem generate_matches_spec_for_integer_duration_witness :
    generateHLSPlaylist ["chunk2.mp4", "init.mp4", "chunk10.mp4"]
        (some ⟨"s5w", JSFloat.num (JSNum.ofNat 4), "t0"⟩) ("7") true =
      specPlaylistEvent 4 ["chunk2.mp4", "init.mp4", "chunk10.mp4"] ("7") true :=
  generate_matches_spec_for_integer_duration _ _ _ _ 4 (by decide) (by decide) (by decide)

/-- C6: a fragment stored under the synthesized default name
(`segment_<zero-padded id>.mp4`, used when the client sends no filename)
never matches the `chunk\d+` pattern, so it is never listed among the
playlist's segments, whatever else the directory holds. -/
theorem default_segment_name_never_listed (ck : String) (files : List String) :
    defaultSegmentName ck ∉ segmentFilesOf files := by
  intro hmem
  have h1 : defaultSegmentName ck ∈ files.filter isChunkName := mem_sortByIdx hmem
  have h2 := (List.mem_filter.mp h1).2
  rw [default_name_not_chunk] at h2
  exact Bool.false_ne_true h2

/-- C6 witness: the default name for chunk id 3 is absent from the segment
list even when the file itself is on disk. -/
theorem default_segment_name_never_listed_witness :
    defaultSegmentName ("3") ∉ segmentFilesOf ["segment_00003.mp4", "chunk1.mp4"] :=
  default_segment_name_never_listed ("3") ["segment_00003.mp4", "chunk1.mp4"]

/-- C7: startup reconciliation registers every storage subdirectory —
with the duration its playlist declares (a playlist declaring target
duration 8 restores `segmentDuration = 8`), the default when the playlist
is absent or declares none, and the recorded (or current) creation time —
and a directory whose playlist cannot be read never prevents the others
from being registered. -/
theorem load_sessions_restores_metadata :
    (∀ (entries : List FsDirEntry) (now : String) (reg : Registry) (e : FsDirEntry),
      ((entries.filter (fun x => x.isDir)).map FsDirEntry.name).Nodup →
      e ∈ entries → e.isDir = true →
      alistLookup e.name (loadSessionsFromFilesystem entries now reg) =
        some (reconcileMeta e now)) ∧
    reconcileDuration (some (generateHLSPlaylist ["chunk0.mp4"]
      (some ⟨"x", JSFloat.num (JSNum.ofNat 8), "t0"⟩) ("0") true)) =
      JSFloat.num (JSNum.ofNat 8) ∧
    reconcileDuration none = JSFloat.num DEFAULT_SEGMENT_DURATION ∧
    (∀ s : String, findTargetDuration s.data = none →
      reconcileDuration (some s) = JSFloat.num DEFAULT_SEGMENT_DURATION) := by
  refine ⟨load_restores_entry, by decide, rfl, ?_⟩
  intro s h
  simp [reconcileDuration, h]

/-- C7 witness: one pre-existing directory whose playlist (written by a
finalized duration-8 session) restores a registry entry with duration 8;
its birthtime is unreadable, so the current time is recorded. -/
theorem load_sessions_restores_metadata_witness :
    alistLookup ("sess8")
      (loadSessionsFromFilesystem
        [⟨"sess8", true,
          some (generateHLSPlaylist ["chunk0.mp4"]
            (some ⟨"x", JSFloat.num (JSNum.ofNat 8), "t0"⟩) ("0") true), none⟩]
        ("now0") []) =
      some ⟨"sess8", JSFloat.num (JSNum.ofNat 8), "now0"⟩ :=
  (load_sessions_restores_metadata.1
    [⟨"sess8", true,
      some (generateHLSPlaylist ["chunk0.mp4"]
        (some ⟨"x", JSFloat.num (JSNum.ofNat 8), "t0"⟩) ("0") true), none⟩] ("now0") []
    ⟨"sess8", true,
      some (generateHLSPlaylist ["chunk0.mp4"]
        (some ⟨"x", JSFloat.num (JSNum.ofNat 8), "t0"⟩) ("0") true), none⟩
    (by decide) (by decide) rfl).trans (by decide)

/-- C8: an accepted first-chunk upload (valid media extension) responds
with the resolved init filename, writes only that file — the registry, the
playlist file, every other file of the session, and every other session's
directory are untouched — and in particular never regenerates the
playlist. -/
theorem accept_init_writes_only_init (st : ServerState) (sid ck bytes : String)
    (clientFilename : Option String)
    (hext : hasMediaExt (resolvedClientName clientFilename initDefaultName) = true) :
    (acceptChunk st sid ck true clientFilename (some bytes)).1 =
      ChunkOutcome.initOk (resolvedClientName clientFilename initDefaultName) ∧
    (acceptChunk st sid ck true clientFilename (some bytes)).2.registry = st.registry ∧
    readFileSt sid playlistFileName (acceptChunk st sid ck true clientFilename (some bytes)).2 =
      readFileSt sid playlistFileName st ∧
    (∀ fname : String, fname ≠ resolvedClientName clientFilename initDefaultName →
      readFileSt sid fname (acceptChunk st sid ck true clientFilename (some bytes)).2 =
        readFileSt sid fname st) ∧
    (∀ sid2 : String, sid2 ≠ sid →
      getDir sid2 (acceptChunk st sid ck true clientFilename (some bytes)).2 =
        getDir sid2 st) := by
  have hred : acceptChunk st sid ck true clientFilename (some bytes) =
      (ChunkOutcome.initOk (resolvedClientName clientFilename initDefaultName),
        writeFile sid (resolvedClientName clientFilename initDefaultName) bytes
          (ensureDir sid st)) := by
    unfold acceptChunk
    simp [hext]
  have hpl : playlistFileName ≠ resolvedClientName clientFilename initDefaultName := by
    intro hh
    rw [← hh] at hext
    exact absurd hext (by decide)
  rw [hred]
  refine ⟨rfl, ?_, ?_, ?_, ?_⟩
  · rw [writeFile_registry, ensureDir_registry]
  · rw [readFileSt_write_ne hpl, readFileSt_ensure]
  · intro fname hf
    rw [readFileSt_write_ne hf, readFileSt_ensure]
  · intro sid2 hs
    rw [getDir_write_ne hs, getDir_ensure_ne hs]

/-- C8 witness: a concrete accepted init upload into an existing session. -/
theorem accept_init_writes_only_init_witness :
    (acceptChunk
        ⟨[(("s8"), ⟨"s8", JSFloat.num (JSNum.ofNat 4), "t0"⟩)],
         [(("s8"), [(("chunk1.mp4"), ("A")), (("playlist.m3u8"), ("P"))])]⟩
        ("s8") ("0") true (some ("myinit.mp4")) (some ("B"))).1 =
      ChunkOutcome.initOk (resolvedClientName (some ("myinit.mp4")) initDefaultName) :=
  (accept_init_writes_only_init
    ⟨[(("s8"), ⟨"s8", JSFloat.num (JSNum.ofNat 4), "t0"⟩)],
     [(("s8"), [(("chunk1.mp4"), ("A")), (("playlist.m3u8"), ("P"))])]⟩
    ("s8") ("0") ("B") (some ("myinit.mp4")) (by decide)).1

/-- C9: creating a session with any positive duration and immediately
generating the playlist over the empty directory yields exactly the header
tags with that duration and nothing else — no EXTINF line can occur, since
the only interpolated text is the duration's rendering, whose characters
are decimal digits, the point, the exponent marker `e` or a sign: never a
`#` or a newline. -/
theorem create_then_generate_header_only (st : ServerState) (sid now : String) (q : JSNum)
    (hq : 0 < q.mantissa) (hdir : getDir sid st = none) :
    (createSession st sid (DurationInput.num q) now).1 =
      CreateOutcome.ok sid (JSFloat.num q) ∧
    getDir sid (createSession st sid (DurationInput.num q) now).2 = some [] ∧
    generateHLSPlaylist [] (getSessionMetadata sid
        (createSession st sid (DurationInput.num q) now).2.registry) ("0") false =
      "#EXTM3U\n" ++ "#EXT-X-VERSION:7\n" ++ "#EXT-X-PLAYLIST-TYPE:EVENT\n"
        ++ ("#EXT-X-TARGETDURATION:" ++ jsNumToString q ++ "\n")
        ++ ("#EXT-X-MEDIA-SEQUENCE:" ++ ("0") ++ "\n")
        ++ "\n" ∧
    (∀ c ∈ (jsNumToString q).data,
      c.isDigit = true ∨ c = '.' ∨ c = 'e' ∨ c = '+' ∨ c = '-') := by
  have h0 : ¬ (q.mantissa = 0) := by omega
  have hfn : ¬ (jsFloatNonPos (JSFloat.num q) = true) := by
    simp [jsFloatNonPos]
    omega
  have hred : createSession st sid (DurationInput.num q) now =
      (CreateOutcome.ok sid (JSFloat.num q),
        { ensureDir sid st with
            registry := alistSet sid ⟨sid, JSFloat.num q, now⟩ (ensureDir sid st).registry }) := by
    unfold createSession jsOrDefaultDuration parsedDurationOf
    simp [h0, hfn]
  rw [hred]
  refine ⟨rfl, ?_, ?_, jsNumToString_chars q⟩
  · rw [getDir_registry_irrelevant, getDir_ensure_self, hdir]
    rfl
  · show generateHLSPlaylist []
        (getSessionMetadata sid
          (alistSet sid ⟨sid, JSFloat.num q, now⟩ (ensureDir sid st).registry))
        ("0") false = _
    rw [show getSessionMetadata sid
        (alistSet sid ⟨sid, JSFloat.num q, now⟩ (ensureDir sid st).registry) =
      some ⟨sid, JSFloat.num q, now⟩ from alistLookup_set_self _ _ _]
    unfold generateHLSPlaylist resolvedDuration
    simp [h0, jsFloatTruthy, jsFloatToString, mapTag, findInit, segmentFilesOf, sortByIdx,
      String.join, strAppendEmpty, strEmptyAppend, strAppendAssoc]

/-- C9 witness: a fresh session with duration 4 and the header-only
playlist it yields. -/
theorem create_then_generate_header_only_witness :
    (createSession ⟨[], []⟩ ("s9") (DurationInput.num (JSNum.ofNat 4)) ("t0")).1 =
      CreateOutcome.ok ("s9") (JSFloat.num (JSNum.ofNat 4)) ∧
    getDir ("s9") (createSession ⟨[], []⟩ ("s9")
      (DurationInput.num (JSNum.ofNat 4)) ("t0")).2 = some [] ∧
    generateHLSPlaylist [] (getSessionMetadata ("s9")
        (createSession ⟨[], []⟩ ("s9") (DurationInput.num (JSNum.ofNat 4)) ("t0")).2.registry)
        ("0") false =
      "#EXTM3U\n" ++ "#EXT-X-VERSION:7\n" ++ "#EXT-X-PLAYLIST-TYPE:EVENT\n"
        ++ ("#EXT-X-TARGETDURATION:" ++ jsNumToString (JSNum.ofNat 4) ++ "\n")
        ++ ("#EXT-X-MEDIA-SEQUENCE:" ++ ("0") ++ "\n")
        ++ "\n" ∧
    (∀ c ∈ (jsNumToString (JSNum.ofNat 4)).data,
      c.isDigit = true ∨ c = '.' ∨ c = 'e' ∨ c = '+' ∨ c = '-') :=
  create_then_generate_header_only ⟨[], []⟩ ("s9") ("t0") (JSNum.ofNat 4)
    (by decide) (by decide)

/-- C10: a non-init upload with a valid media extension always succeeds
with the stored filename and size — even when the session id was never
created, because the handler runs a recursive mkdir before the
directory-existence check, making the 404 branch unreachable without
external deletion; afterwards the session directory exists. -/
theorem accept_chunk_auto_creates_dir (st : ServerState) (sid ck bytes : String)
    (clientFilename : Option String)
    (hext : hasMediaExt (resolvedClientName clientFilename (defaultSegmentName ck)) = true) :
    (acceptChunk st sid ck false clientFilename (some bytes)).1 =
      ChunkOutcome.chunkOk ck (resolvedClientName clientFilename (defaultSegmentName ck))
        bytes.length ∧
    (getDir sid (acceptChunk st sid ck false clientFilename (some bytes)).2).isSome =
      true := by
  have hd : getDir sid (writeFile sid
      (resolvedClientName clientFilename (defaultSegmentName ck)) bytes (ensureDir sid st)) =
      some (alistSet (resolvedClientName clientFilename (defaultSegmentName ck)) bytes
        ((getDir sid st).getD [])) := by
    rw [getDir_write_self, getDir_ensure_self]
    rfl
  have hred : acceptChunk st sid ck false clientFilename (some bytes) =
      (ChunkOutcome.chunkOk ck (resolvedClientName clientFilename (defaultSegmentName ck))
          bytes.length,
        writeFile sid playlistFileName
          (generateHLSPlaylist
            ((alistSet (resolvedClientName clientFilename (defaultSegmentName ck)) bytes
              ((getDir sid st).getD [])).map Prod.fst)
            (getSessionMetadata sid st.registry) ck false)
          (writeFile sid (resolvedClientName clientFilename (defaultSegmentName ck)) bytes
            (ensureDir sid st))) := by
    unfold acceptChunk
    simp [hext, hd, writeFile_registry, ensureDir_registry]
  rw [hred]
  refine ⟨rfl, ?_⟩
  rw [getDir_write_self, hd]
  rfl

/-- C10 witness: an upload addressed to a session id that was never created
succeeds with the synthesized default filename, and the directory exists
afterwards. -/
theorem accept_chunk_auto_creates_dir_witness :
    (acceptChunk ⟨[], []⟩ ("never") ("3") false none (some ("BYTES"))).1 =
      ChunkOutcome.chunkOk ("3") (resolvedClientName none (defaultSegmentName ("3")))
        ("BYTES").length ∧
    (getDir ("never") (acceptChunk ⟨[], []⟩ ("never") ("3") false none
      (some ("BYTES"))).2).isSome = true :=
  accept_chunk_auto_creates_dir ⟨[], []⟩ ("never") ("3") ("BYTES") none (by decide)

end HLSServer
